import Mathlib

/-!
Verification of the cas2json CAS-statement parsing core against its
natural-language specification.  The Python source is shallowly embedded:
Decimal values become `Rat`, `None` becomes `Option`, dataclass
`__post_init__` methods become pure functions, and the per-line state
machines become explicit folds over classified line events.  Regex
patterns that live in modules absent from the source tree (`patterns.py`,
`constants.py`) are modelled from the specification and marked as such.
-/

/-! ## Transaction types (`cas2json/enums.py`, values as listed in the spec) -/

/-- Transaction type enumeration used by the CAMS transaction classifier. -/
inductive TransactionType where
  | PURCHASE
  | PURCHASE_SIP
  | REDEMPTION
  | SWITCH_IN
  | SWITCH_IN_MERGER
  | SWITCH_OUT
  | SWITCH_OUT_MERGER
  | DIVIDEND_PAYOUT
  | DIVIDEND_REINVEST
  | SEGREGATION
  | REVERSAL
  | STT_TAX
  | STAMP_DUTY_TAX
  | TDS_TAX
  | MISC
  | UNKNOWN
  deriving DecidableEq, Repr

/-! ## `Scheme.__post_init__` (`cas2json/types.py`) -/

/-- Python truthiness test for an optional numeric field:
`None` and `0` are falsy, every other value is truthy. -/
def pyFalsy (x : Option Rat) : Bool := decide (x.getD 0 = 0)

/-- Fields of `cas2json.types.Scheme` relevant to `__post_init__`
(`types.py`, dataclass `Scheme`). -/
structure SchemeFields where
  isin : Option String
  scheme_name : String
  nav : Option Rat
  units : Option Rat
  cost : Option Rat
  folio : Option String
  market_value : Option Rat
  invested_value : Option Rat
  deriving DecidableEq, Repr

/-- `Scheme.__post_init__`: derive `invested_value` from `cost * units`
when `invested_value` is falsy and both `cost` and `units` are truthy, and
`market_value` from `nav * units` under the analogous condition. -/
def schemePostInit (s : SchemeFields) : SchemeFields :=
  let s1 :=
    if pyFalsy s.invested_value && !pyFalsy s.cost && !pyFalsy s.units then
      { s with invested_value := some (s.cost.getD 0 * s.units.getD 0) }
    else s
  if pyFalsy s1.market_value && !pyFalsy s1.nav && !pyFalsy s1.units then
    { s1 with market_value := some (s1.nav.getD 0 * s1.units.getD 0) }
  else s1

/-! ## `TransactionData.__post_init__` (`cas2json/types.py`) -/

/-- Modelled from the spec: `HOLDINGS_CASHFLOW` (from `cas2json/constants.py`,
absent from the source tree) maps each transaction type to its cash-flow
direction; inflows of units carry direction `+1` and outflows / charges
carry direction `-1`. -/
def HOLDINGS_CASHFLOW : TransactionType → Int
  | .PURCHASE => 1
  | .PURCHASE_SIP => 1
  | .SWITCH_IN => 1
  | .SWITCH_IN_MERGER => 1
  | .DIVIDEND_REINVEST => 1
  | .SEGREGATION => 1
  | .DIVIDEND_PAYOUT => -1
  | .REDEMPTION => -1
  | .SWITCH_OUT => -1
  | .SWITCH_OUT_MERGER => -1
  | .REVERSAL => -1
  | .STT_TAX => -1
  | .STAMP_DUTY_TAX => -1
  | .TDS_TAX => -1
  | .MISC => -1
  | .UNKNOWN => -1

/-- Every cash-flow direction is `1` or `-1`. -/
theorem holdings_cashflow_pm_one (t : TransactionType) :
    HOLDINGS_CASHFLOW t = 1 ∨ HOLDINGS_CASHFLOW t = -1 := by
  cases t <;> simp [HOLDINGS_CASHFLOW]

/-- `TransactionData.__post_init__` (`types.py`): the stored amount for a
numeric input amount.  With `units` absent the amount is multiplied by the
type's cash-flow direction; otherwise the absolute amount takes the sign
of `units` (`+` when `units > 0`, `-` otherwise). -/
def transactionPostInitAmount (t : TransactionType) (amount : Rat)
    (units : Option Rat) : Rat :=
  match units with
  | none => (HOLDINGS_CASHFLOW t : Rat) * amount
  | some u => (if 0 < u then (1 : Rat) else -1) * |amount|

/-- Sign of a rational number as an integer in `{-1, 0, 1}`. -/
def ratSign (x : Rat) : Int := if 0 < x then 1 else if x < 0 then -1 else 0

/-- C10: `Scheme.__post_init__` derives `invested_value = cost * units` when
`invested_value` is null or zero and both `cost` and `units` are non-null and
nonzero, derives `market_value = nav * units` under the analogous condition,
and stores all other fields as given. -/
theorem scheme_post_init_spec (s : SchemeFields) :
    ((schemePostInit s).isin = s.isin ∧
     (schemePostInit s).scheme_name = s.scheme_name ∧
     (schemePostInit s).nav = s.nav ∧
     (schemePostInit s).units = s.units ∧
     (schemePostInit s).cost = s.cost ∧
     (schemePostInit s).folio = s.folio) ∧
    (∀ c u : Rat, (s.invested_value = none ∨ s.invested_value = some 0) →
      s.cost = some c → c ≠ 0 → s.units = some u → u ≠ 0 →
      (schemePostInit s).invested_value = some (c * u)) ∧
    (∀ n u : Rat, (s.market_value = none ∨ s.market_value = some 0) →
      s.nav = some n → n ≠ 0 → s.units = some u → u ≠ 0 →
      (schemePostInit s).market_value = some (n * u)) := by
  refine ⟨?_, ?_, ?_⟩
  · unfold schemePostInit
    dsimp only
    split <;> split <;> simp
  · intro c u hiv hc hc0 hu hu0
    have hfiv : pyFalsy s.invested_value = true := by
      rcases hiv with h | h <;> simp [pyFalsy, h]
    have hfc : pyFalsy s.cost = false := by simp [pyFalsy, hc, hc0]
    have hfu : pyFalsy s.units = false := by simp [pyFalsy, hu, hu0]
    unfold schemePostInit
    dsimp only
    rw [hfiv, hfc, hfu]
    simp only [Bool.not_false, Bool.and_self, Bool.and_true, if_true]
    split <;> simp [hc, hu]
  · intro n u hmv hn hn0 hu hu0
    have hfn : pyFalsy s.nav = false := by simp [pyFalsy, hn, hn0]
    have hfu : pyFalsy s.units = false := by simp [pyFalsy, hu, hu0]
    unfold schemePostInit
    dsimp only
    split
    · dsimp only
      rcases hmv with h | h <;> rw [h] <;>
        simp [pyFalsy, hfn, hfu, hn, hu, hn0, hu0]
    · rcases hmv with h | h <;> rw [h] <;>
        simp [pyFalsy, hfn, hfu, hn, hu, hn0, hu0]

/-- C10 witness: a concrete scheme with null `invested_value`/`market_value`,
`cost = 4`, `nav = 2`, `units = 3` gets `invested_value = 12` and
`market_value = 6`. -/
theorem scheme_post_init_spec_witness :
    (schemePostInit ⟨none, "X", some 2, some 3, some 4, none, none, none⟩).invested_value
        = some (4 * 3) ∧
    (schemePostInit ⟨none, "X", some 2, some 3, some 4, none, none, none⟩).market_value
        = some (2 * 3) :=
  ⟨(scheme_post_init_spec ⟨none, "X", some 2, some 3, some 4, none, none, none⟩).2.1
      4 3 (Or.inl rfl) rfl (by norm_num) rfl (by norm_num),
   (scheme_post_init_spec ⟨none, "X", some 2, some 3, some 4, none, none, none⟩).2.2
      2 3 (Or.inl rfl) rfl (by norm_num) rfl (by norm_num)⟩

/-- C2: for a constructed transaction with a positive numeric amount
(amounts are passed as magnitudes at both construction sites), the stored
amount's sign is the cash-flow direction applied to the magnitude when
`units` is null, and otherwise matches the sign of `units`. -/
theorem transaction_amount_sign_spec (t : TransactionType) (a : Rat)
    (h : 0 < a) :
    ratSign (transactionPostInitAmount t a none)
        = ratSign ((HOLDINGS_CASHFLOW t : Rat) * |a|) ∧
    (∀ u : Rat, 0 < u → 0 < transactionPostInitAmount t a (some u)) ∧
    (∀ u : Rat, u < 0 → transactionPostInitAmount t a (some u) < 0) := by
  have habs : |a| = a := abs_of_pos h
  refine ⟨?_, ?_, ?_⟩
  · simp [transactionPostInitAmount, habs]
  · intro u hu
    simp only [transactionPostInitAmount, if_pos hu, one_mul, habs]
    exact h
  · intro u hu
    have : ¬ (0 < u) := by linarith
    simp only [transactionPostInitAmount, if_neg this, habs]
    linarith

/-- C2 witness: concrete checks of the sign rule at amount `5`, for an
STT tax with null units and for purchases/redemptions with signed units. -/
theorem transaction_amount_sign_spec_witness :
    ratSign (transactionPostInitAmount .STT_TAX 5 none)
        = ratSign ((HOLDINGS_CASHFLOW .STT_TAX : Rat) * |5|) ∧
    0 < transactionPostInitAmount .PURCHASE 5 (some 10) ∧
    transactionPostInitAmount .REDEMPTION 5 (some (-3)) < 0 :=
  ⟨(transaction_amount_sign_spec .STT_TAX 5 (by norm_num)).1,
   (transaction_amount_sign_spec .PURCHASE 5 (by norm_num)).2.1 10 (by norm_num),
   (transaction_amount_sign_spec .REDEMPTION 5 (by norm_num)).2.2 (-3) (by norm_num)⟩

/-! ## Transaction type classification (`cas2json/cams/helpers.py`,
`get_transaction_type`; identical logic in `file_processors/cams.py`) -/

/-- Lower-case a string character by character (Python `str.lower`). -/
def strLower (s : String) : String := String.mk (s.data.map Char.toLower)

/-- Does `pat` occur as a contiguous run inside `hay`? -/
def listIsInfix (pat : List Char) : List Char → Bool
  | [] => pat.isEmpty
  | c :: rest => pat.isPrefixOf (c :: rest) || listIsInfix pat rest

/-- Python's `pat in hay` substring test. -/
def containsSub (hay pat : String) : Bool := listIsInfix pat.data hay.data

/-- Matcher for the `l+ment` suffix of the regex `instal+ment`:
one or more `l`s followed by the literal `ment`. -/
def lsThenMent : List Char → Bool
  | 'l' :: rest => "ment".data.isPrefixOf rest || lsThenMent rest
  | _ => false

/-- Search for the regex `instal+ment` anywhere in the text. -/
def containsInstalment : List Char → Bool
  | [] => false
  | c :: rest =>
      ("insta".data.isPrefixOf (c :: rest) && lsThenMent ((c :: rest).drop 5))
      || containsInstalment rest

/-- Search for the regex `sys.+?invest`: the literal `sys`, at least one
further character, then the literal `invest`. -/
def sysInvestMatch : List Char → Bool
  | [] => false
  | c :: rest =>
      ("sys".data.isPrefixOf (c :: rest) && listIsInfix "invest".data ((c :: rest).drop 4))
      || sysInvestMatch rest

/-- Matcher for `\s+balance`: one or more whitespace characters followed by
the literal `balance`. -/
def wsThenBalance : List Char → Bool
  | c :: rest => c.isWhitespace && ("balance".data.isPrefixOf rest || wsThenBalance rest)
  | _ => false

/-- Search for the regex `insufficient\s+balance` anywhere in the text. -/
def containsInsufficientBalance : List Char → Bool
  | [] => false
  | c :: rest =>
      ("insufficient".data.isPrefixOf (c :: rest) && wsThenBalance ((c :: rest).drop 12))
      || containsInsufficientBalance rest

/-- The reversal regex of `get_transaction_type`:
`reversal|rejection|dishonoured|mismatch|insufficient\s+balance`. -/
def reversalPattern (s : String) : Bool :=
  containsSub s "reversal" || containsSub s "rejection" ||
  containsSub s "dishonoured" || containsSub s "mismatch" ||
  containsInsufficientBalance s.data

/-- The SIP/systematic/installment condition of `get_transaction_type`. -/
def sipPattern (s : String) : Bool :=
  containsSub s "sip" || containsSub s "systematic" ||
  containsInstalment s.data || sysInvestMatch s.data

/-- Numeric value of a list of decimal digits. -/
def digitsVal (cs : List Char) : Nat :=
  cs.foldl (fun n c => 10 * n + (c.toNat - '0'.toNat)) 0

/-- Parse a decimal literal `\d+(\.\d*)?` at the head of the text. -/
def parseDecimalHead (cs : List Char) : Option Rat :=
  let intDigits := cs.takeWhile Char.isDigit
  if intDigits.isEmpty then none
  else
    match cs.dropWhile Char.isDigit with
    | '.' :: rest2 =>
        let fracDigits := rest2.takeWhile Char.isDigit
        some ((digitsVal intDigits : Rat) +
          (digitsVal fracDigits : Rat) / ((10 : Rat) ^ fracDigits.length))
    | _ => some (digitsVal intDigits : Nat)

/-- First decimal number appearing after an `@` sign, if any. -/
def rateAfterAt : List Char → Option Rat
  | [] => none
  | '@' :: rest => parseDecimalHead (rest.dropWhile (fun c => !c.isDigit))
  | _ :: rest => rateAfterAt rest

/-- Modelled from the spec: the dividend pattern of `cas2json/patterns.py`
(absent from the source tree) matches a description mentioning a dividend
together with a rate introduced by an `@` sign, capturing a reinvestment
flag and the rate. -/
def dividendMatch (d : String) : Option (Bool × Rat) :=
  if containsSub d "dividend" then
    match rateAfterAt d.data with
    | some r => some (containsSub d "reinvest", r)
    | none => none
  else none

/-- `get_transaction_type` (`cams/helpers.py`): first-match decision table
over the lower-cased description and the optional signed units.
`miscKeywords` stands for `MISCELLANEOUS_KEYWORDS` from the absent
`constants.py`. -/
def get_transaction_type (miscKeywords : List String) (description : String)
    (units : Option Rat) : TransactionType × Option Rat :=
  let d := strLower description
  match dividendMatch d with
  | some (flag, rate) =>
      ((if flag then TransactionType.DIVIDEND_REINVEST
        else TransactionType.DIVIDEND_PAYOUT), some rate)
  | none =>
    match units with
    | none =>
        if containsSub d "stt" then (.STT_TAX, none)
        else if containsSub d "stamp" then (.STAMP_DUTY_TAX, none)
        else if containsSub d "tds" then (.TDS_TAX, none)
        else (.MISC, none)
    | some u =>
        if 0 < u then
          if containsSub d "switch" then
            ((if containsSub d "merger" then .SWITCH_IN_MERGER else .SWITCH_IN), none)
          else if containsSub d "segregat" then (.SEGREGATION, none)
          else if sipPattern d then (.PURCHASE_SIP, none)
          else (.PURCHASE, none)
        else if u < 0 then
          if reversalPattern d then (.REVERSAL, none)
          else if containsSub d "switch" then
            ((if containsSub d "merger" then .SWITCH_OUT_MERGER else .SWITCH_OUT), none)
          else (.REDEMPTION, none)
        else if miscKeywords.any (fun k => containsSub d k) then (.MISC, none)
        else (.UNKNOWN, none)

/-- C4: transaction type classification is a first-match decision table over
(description, units): a dividend match yields DIVIDEND_REINVEST or
DIVIDEND_PAYOUT with the captured rate; with null units a description
containing "stt" yields STT_TAX; "Purchase - SIP" with units 10 yields
PURCHASE_SIP; negative units with a reversal-family pattern yield REVERSAL;
positive units matching the SIP patterns (and not switch/segregation) yield
PURCHASE_SIP; and with zero units and no matching row the result is
UNKNOWN. -/
theorem get_transaction_type_decision_table (kws : List String) (d : String) :
    (∀ (flag : Bool) (rate : Rat) (u : Option Rat),
        dividendMatch (strLower d) = some (flag, rate) →
        get_transaction_type kws d u =
          ((if flag then TransactionType.DIVIDEND_REINVEST
            else TransactionType.DIVIDEND_PAYOUT), some rate)) ∧
    (dividendMatch (strLower d) = none → containsSub (strLower d) "stt" = true →
        get_transaction_type kws d none = (.STT_TAX, none)) ∧
    (get_transaction_type kws "Purchase - SIP" (some 10) = (.PURCHASE_SIP, none)) ∧
    (∀ u : Rat, dividendMatch (strLower d) = none →
        reversalPattern (strLower d) = true → u < 0 →
        get_transaction_type kws d (some u) = (.REVERSAL, none)) ∧
    (∀ u : Rat, dividendMatch (strLower d) = none →
        containsSub (strLower d) "switch" = false →
        containsSub (strLower d) "segregat" = false →
        sipPattern (strLower d) = true → 0 < u →
        get_transaction_type kws d (some u) = (.PURCHASE_SIP, none)) ∧
    (dividendMatch (strLower d) = none →
        (∀ k ∈ kws, containsSub (strLower d) k = false) →
        get_transaction_type kws d (some 0) = (.UNKNOWN, none)) := by
  refine ⟨?_, ?_, ?_, ?_, ?_, ?_⟩
  · intro flag rate u h
    simp [get_transaction_type, h]
  · intro h1 h2
    simp [get_transaction_type, h1, h2]
  · rfl
  · intro u h1 h2 hu
    have hu' : ¬ (0 < u) := by linarith
    simp [get_transaction_type, h1, h2, hu, hu']
  · intro u h1 h2 h3 h4 hu
    simp [get_transaction_type, h1, h2, h3, h4, hu]
  · intro h1 h2
    have hz : ¬ ((0:Rat) < 0) := by norm_num
    have hz' : ¬ ((0:Rat) < 0) := hz
    have hany : (kws.any fun k => containsSub (strLower d) k) = false := by
      simp only [List.any_eq_false]
      intro k hk
      simp [h2 k hk]
    simp [get_transaction_type, h1, hany]

/-- C4 witness: the decision table evaluated at the spec's own examples. -/
theorem get_transaction_type_decision_table_witness :
    get_transaction_type [] "Securities Transaction Tax STT" none = (.STT_TAX, none) ∧
    get_transaction_type [] "Purchase - SIP" (some 10) = (.PURCHASE_SIP, none) ∧
    get_transaction_type [] "Purchase Reversal" (some (-5)) = (.REVERSAL, none) ∧
    get_transaction_type [] "Unmatched entry" (some 0) = (.UNKNOWN, none) ∧
    get_transaction_type [] "Dividend Reinvestment @ Rs 2.50" none
      = (.DIVIDEND_REINVEST, some (5/2)) := by
  have hdiv : dividendMatch (strLower "Dividend Reinvestment @ Rs 2.50")
      = some (true, 5/2) := by
    have h0 : dividendMatch (strLower "Dividend Reinvestment @ Rs 2.50")
        = some (true, (2:Rat) + 50/10^2) := rfl
    rw [h0]
    norm_num
  refine ⟨?_, ?_, ?_, ?_, ?_⟩
  · exact (get_transaction_type_decision_table [] "Securities Transaction Tax STT").2.1
      (by decide) (by decide)
  · exact (get_transaction_type_decision_table [] "Purchase - SIP").2.2.1
  · exact (get_transaction_type_decision_table [] "Purchase Reversal").2.2.2.1
      (-5) (by decide) (by decide) (by decide)
  · exact (get_transaction_type_decision_table [] "Unmatched entry").2.2.2.2.2
      (by decide) (by simp)
  · have := (get_transaction_type_decision_table [] "Dividend Reinvestment @ Rs 2.50").1
      true (5/2) none hdiv
    simpa using this

/-! ## Balance Reconciler (`cas2json/cams/__init__.py::parse_cams_pdf`,
sort_transactions block; same logic in `parsers/cams.py`) -/

/-- Transaction fields relevant to the Balance Reconciler.  Dates are
modelled as naturals (dates are totally ordered); `units`/`balance` are
optional exact decimals. -/
structure RTxn where
  date : Nat
  units : Option Rat
  balance : Option Rat
  deriving DecidableEq, Repr

/-- The sort key relation of `sorted(transactions, key=lambda x: x.date)`. -/
def txnLE (a b : RTxn) : Prop := a.date ≤ b.date

instance : DecidableRel txnLE := fun a b => Nat.decLe a.date b.date

instance : IsTotal RTxn txnLE := ⟨fun a b => Nat.le_total a.date b.date⟩

instance : IsTrans RTxn txnLE := ⟨fun _ _ _ h1 h2 => Nat.le_trans h1 h2⟩

/-- The balance-recomputation walk: `balance += transaction.units or 0;
transaction.balance = balance` over the sorted list. -/
def recomputeBalances (bal : Rat) : List RTxn → List RTxn
  | [] => []
  | t :: rest =>
      let b := bal + t.units.getD 0
      { t with balance := some b } :: recomputeBalances b rest

/-- Sum of the units of a transaction list, null units counting as zero. -/
def sumUnits (l : List RTxn) : Rat := (l.map (fun t => t.units.getD 0)).sum

/-- The Balance Reconciler for one scheme (`parse_cams_pdf`, the
`sort_transactions` block): stable-sort by date (Python's `sorted` is the
stable sort, embedded as insertion sort) and, only when the order changed,
recompute running balances from the scheme's opening units. -/
def reconcile_transactions (openUnits : Rat) (txns : List RTxn) : List RTxn :=
  let sortedTxns := txns.insertionSort txnLE
  if txns = sortedTxns then txns else recomputeBalances openUnits sortedTxns

theorem recompute_map_date (b : Rat) (l : List RTxn) :
    (recomputeBalances b l).map (fun t => t.date) = l.map (fun t => t.date) := by
  induction l generalizing b with
  | nil => rfl
  | cons t rest ih => simp [recomputeBalances, ih]

theorem recompute_map_date_units (b : Rat) (l : List RTxn) :
    (recomputeBalances b l).map (fun t => (t.date, t.units))
      = l.map (fun t => (t.date, t.units)) := by
  induction l generalizing b with
  | nil => rfl
  | cons t rest ih => simp [recomputeBalances, ih]

theorem recompute_length (b : Rat) (l : List RTxn) :
    (recomputeBalances b l).length = l.length := by
  induction l generalizing b with
  | nil => rfl
  | cons t rest ih => simp [recomputeBalances, ih]

theorem recompute_mem_date (b : Rat) (l : List RTxn) (x : RTxn)
    (hx : x ∈ recomputeBalances b l) : ∃ y ∈ l, x.date = y.date := by
  induction l generalizing b with
  | nil => simp [recomputeBalances] at hx
  | cons t rest ih =>
    simp only [recomputeBalances, List.mem_cons] at hx
    rcases hx with h | h
    · exact ⟨t, List.mem_cons_self t rest, by simp [h]⟩
    · obtain ⟨y, hy, hxy⟩ := ih _ h
      exact ⟨y, List.mem_cons_of_mem t hy, hxy⟩

theorem recompute_sorted (b : Rat) (l : List RTxn)
    (h : List.Sorted txnLE l) : List.Sorted txnLE (recomputeBalances b l) := by
  induction l generalizing b with
  | nil => simp [recomputeBalances]
  | cons t rest ih =>
    rw [List.sorted_cons] at h
    refine List.Pairwise.cons ?_ (ih (b + t.units.getD 0) h.2)
    intro x hx
    obtain ⟨y, hy, hxy⟩ := recompute_mem_date _ _ x hx
    show t.date ≤ x.date
    rw [hxy]
    exact h.1 y hy

theorem recompute_balance_get (l : List RTxn) (b : Rat) (i : Nat)
    (h : i < (recomputeBalances b l).length) :
    ((recomputeBalances b l).get ⟨i, h⟩).balance
      = some (b + sumUnits (l.take (i + 1))) := by
  induction l generalizing b i with
  | nil => simp [recomputeBalances] at h
  | cons t rest ih =>
    cases i with
    | zero => simp [recomputeBalances, sumUnits]
    | succ j =>
      have h' : j < (recomputeBalances (b + t.units.getD 0) rest).length := by
        simpa [recomputeBalances] using h
      have := ih (b + t.units.getD 0) j h'
      simp only [recomputeBalances, List.get_cons_succ, this]
      simp [sumUnits, add_assoc]

/-- C6: the Balance Reconciler is the identity on date-sorted transaction
lists; on unsorted lists it replaces the list by the stable date-sort with
balances recomputed as the running accumulation from the opening units
(preserving each transaction's date and units as a multiset). -/
theorem balance_reconciler_spec (o : Rat) (txns : List RTxn) :
    (List.Sorted txnLE txns → reconcile_transactions o txns = txns) ∧
    (¬ List.Sorted txnLE txns →
      reconcile_transactions o txns
          = recomputeBalances o (txns.insertionSort txnLE) ∧
      List.Sorted txnLE (reconcile_transactions o txns) ∧
      List.Perm ((reconcile_transactions o txns).map (fun t => (t.date, t.units)))
          (txns.map (fun t => (t.date, t.units))) ∧
      ∀ i (h : i < (reconcile_transactions o txns).length),
        ((reconcile_transactions o txns).get ⟨i, h⟩).balance
          = some (o + sumUnits ((txns.insertionSort txnLE).take (i + 1)))) := by
  constructor
  · intro hs
    simp [reconcile_transactions, hs.insertionSort_eq]
  · intro hns
    have hne : txns ≠ txns.insertionSort txnLE := by
      intro he
      exact hns (he ▸ List.sorted_insertionSort txnLE txns)
    have hout : reconcile_transactions o txns
        = recomputeBalances o (txns.insertionSort txnLE) := by
      simp [reconcile_transactions, hne]
    refine ⟨hout, ?_, ?_, ?_⟩
    · rw [hout]
      exact recompute_sorted o _ (List.sorted_insertionSort txnLE txns)
    · rw [hout, recompute_map_date_units]
      exact (List.perm_insertionSort txnLE txns).map _
    · intro i h
      have hg := List.get_of_eq hout ⟨i, h⟩
      rw [hg]
      exact recompute_balance_get _ o i _

/-- C6 witness: a sorted two-element list is left unchanged; an unsorted
two-element list is replaced by its date-sort with running balances from
the opening units. -/
theorem balance_reconciler_spec_witness :
    (reconcile_transactions 10 [⟨1, some 3, some 98⟩, ⟨2, some 5, some 99⟩]
        = [⟨1, some 3, some 98⟩, ⟨2, some 5, some 99⟩]) ∧
    ¬ List.Sorted txnLE [⟨2, some 5, some 99⟩, ⟨1, some 3, some 98⟩] ∧
    reconcile_transactions 10 [⟨2, some 5, some 99⟩, ⟨1, some 3, some 98⟩]
        = recomputeBalances 10
            ([⟨2, some 5, some 99⟩, ⟨1, some 3, some 98⟩].insertionSort txnLE) ∧
    List.Sorted txnLE
      (reconcile_transactions 10 [⟨2, some 5, some 99⟩, ⟨1, some 3, some 98⟩]) := by
  have hns : ¬ List.Sorted txnLE [⟨2, some 5, some 99⟩, ⟨1, some 3, some 98⟩] := by
    decide
  have h := balance_reconciler_spec 10 [⟨2, some 5, some 99⟩, ⟨1, some 3, some 98⟩]
  have hsorted : List.Sorted txnLE [⟨1, some 3, some 98⟩, ⟨2, some 5, some 99⟩] := by
    decide
  exact ⟨(balance_reconciler_spec 10 _).1 hsorted, hns, (h.2 hns).1, (h.2 hns).2.1⟩

/-! ## Line Reconstructor (`cas2json/parser.py::CASParser.recover_lines`;
same algorithm in `parsers/common.py`) -/

/-- A pymupdf rectangle: `(x0, y0)` top-left, `(x1, y1)` bottom-right,
with `y` growing downwards. -/
structure PRect where
  x0 : Rat
  y0 : Rat
  x1 : Rat
  y1 : Rat
  deriving DecidableEq, Repr

/-- A positioned word: rectangle plus text (`WordData`). -/
abbrev PWord := PRect × String

/-- pymupdf rectangle union `lrect |= wr`. -/
def rectUnion (a b : PRect) : PRect :=
  ⟨min a.x0 b.x0, min a.y0 b.y0, max a.x1 b.x1, max a.y1 b.y1⟩

/-- The vertical-glyph filter `abs(wr.x1 - wr.x0) * 4 < abs(wr.y1 - wr.y0)`
(with the default `vertical_factor = 4`). -/
def isVerticalWord (w : PRect) : Bool :=
  decide (|w.x1 - w.x0| * 4 < |w.y1 - w.y0|)

/-- The merge test: word top or bottom within the default tolerance `3`
of the current line's rectangle. -/
def matchesLine (lrect w : PRect) : Bool :=
  decide (|lrect.y0 - w.y0| ≤ 3) || decide (|lrect.y1 - w.y1| ≤ 3)

/-- Left-to-right ordering of words by `x0`
(`sorted(line, key=lambda w: w[0].x0)`). -/
def wordLE (a b : PWord) : Prop := a.1.x0 ≤ b.1.x0

instance : DecidableRel wordLE := fun a b => Rat.instDecidableLe a.1.x0 b.1.x0

instance : IsTotal PWord wordLE := ⟨fun a b => le_total a.1.x0 b.1.x0⟩

instance : IsTrans PWord wordLE := ⟨fun _ _ _ h1 h2 => le_trans h1 h2⟩

/-- Python's `" ".join`. -/
def joinSpace : List String → String
  | [] => ""
  | [t] => t
  | t :: rest => t ++ " " ++ joinSpace rest

/-- A reconstructed line: text, accumulated rectangle and constituent
words. -/
structure LineRec where
  text : String
  rect : PRect
  words : List PWord
  deriving DecidableEq, Repr

/-- Close the current line: sort its words left-to-right and join their
texts with single spaces. -/
def closeLine (line : List PWord) (lrect : PRect) : LineRec :=
  let wordPos := line.insertionSort wordLE
  ⟨joinSpace (wordPos.map (fun w => w.2)), lrect, wordPos⟩

/-- The word-walking loop of `recover_lines`: skip vertical words, merge
words within tolerance into the current line, otherwise emit the current
line and restart, and emit the final unfinished line at the end. -/
def recoverAux : List PWord → List PWord → PRect → List LineRec → List LineRec
  | [], line, lrect, acc => acc ++ [closeLine line lrect]
  | (wr, text) :: rest, line, lrect, acc =>
      if isVerticalWord wr then recoverAux rest line lrect acc
      else if matchesLine lrect wr then
        recoverAux rest (line ++ [(wr, text)]) (rectUnion lrect wr) acc
      else recoverAux rest [(wr, text)] wr (acc ++ [closeLine line lrect])

/-- Vertical ordering of emitted lines by the bottom edge of their
rectangle (`lines.sort(key=lambda x: x[1].y1)`). -/
def lineLE (a b : LineRec) : Prop := a.rect.y1 ≤ b.rect.y1

instance : DecidableRel lineLE := fun a b => Rat.instDecidableLe a.rect.y1 b.rect.y1

instance : IsTotal LineRec lineLE := ⟨fun a b => le_total a.rect.y1 b.rect.y1⟩

instance : IsTrans LineRec lineLE := ⟨fun _ _ _ h1 h2 => le_trans h1 h2⟩

/-- The emitted line records of `recover_lines`, sorted by bottom edge. -/
def recoverRecs : List PWord → List LineRec
  | [] => []
  | w0 :: rest => (recoverAux rest [w0] w0.1 []).insertionSort lineLE

/-- `CASParser.recover_lines`: reconstructed lines as (text, words) pairs
in top-to-bottom reading order. -/
def recover_lines (words : List PWord) : List (String × List PWord) :=
  (recoverRecs words).map (fun l => (l.text, l.words))

/-- The coherence invariant of every emitted line record: at least one
word, words sorted left-to-right, text the space-join of the word texts. -/
def GoodLine (r : LineRec) : Prop :=
  r.words ≠ [] ∧ List.Sorted wordLE r.words ∧
  r.text = joinSpace (r.words.map (fun w => w.2))

theorem closeLine_good (line : List PWord) (lrect : PRect) (h : line ≠ []) :
    GoodLine (closeLine line lrect) := by
  refine ⟨?_, List.sorted_insertionSort wordLE line, rfl⟩
  intro hnil
  have hlen : (line.insertionSort wordLE).length = 0 := by
    have : (closeLine line lrect).words = line.insertionSort wordLE := rfl
    rw [this] at hnil
    rw [hnil]
    rfl
  rw [List.length_insertionSort] at hlen
  exact h (List.length_eq_zero.mp hlen)

theorem recoverAux_good (ws : List PWord) :
    ∀ (line : List PWord) (lrect : PRect) (acc : List LineRec),
    line ≠ [] → (∀ r ∈ acc, GoodLine r) →
    ∀ r ∈ recoverAux ws line lrect acc, GoodLine r := by
  induction ws with
  | nil =>
    intro line lrect acc hline hacc r hr
    simp only [recoverAux, List.mem_append, List.mem_singleton] at hr
    rcases hr with h | h
    · exact hacc r h
    · exact h ▸ closeLine_good line lrect hline
  | cons w rest ih =>
    intro line lrect acc hline hacc r hr
    obtain ⟨wr, text⟩ := w
    simp only [recoverAux] at hr
    split at hr
    · exact ih line lrect acc hline hacc r hr
    · split at hr
      · exact ih (line ++ [(wr, text)]) (rectUnion lrect wr) acc
          (by simp) hacc r hr
      · refine ih [(wr, text)] wr (acc ++ [closeLine line lrect])
          (by simp) ?_ r hr
        intro r' hr'
        rcases List.mem_append.mp hr' with h | h
        · exact hacc r' h
        · exact (List.mem_singleton.mp h) ▸ closeLine_good line lrect hline

theorem recoverAux_ne_nil (ws : List PWord) :
    ∀ (line : List PWord) (lrect : PRect) (acc : List LineRec),
    recoverAux ws line lrect acc ≠ [] := by
  induction ws with
  | nil =>
    intro line lrect acc
    simp [recoverAux]
  | cons w rest ih =>
    intro line lrect acc
    obtain ⟨wr, text⟩ := w
    simp only [recoverAux]
    split
    · exact ih line lrect acc
    · split
      · exact ih _ _ _
      · exact ih _ _ _

/-- C7: on a non-empty word sequence the Line Reconstructor emits only
non-empty lines whose words are sorted left-to-right and whose text is the
single-space join of the word texts, emits the lines sorted by the bottom
edge of their rectangles, emits at least one line (the final line is
closed), and maps a one-word page to exactly the one line consisting of
that word. -/
theorem recover_lines_spec (words : List PWord) (hne : words ≠ []) :
    (∀ p ∈ recover_lines words, p.2 ≠ []) ∧
    (∀ p ∈ recover_lines words, List.Sorted wordLE p.2) ∧
    (∀ p ∈ recover_lines words, p.1 = joinSpace (p.2.map (fun w => w.2))) ∧
    List.Sorted lineLE (recoverRecs words) ∧
    recover_lines words ≠ [] ∧
    (∀ w : PWord, words = [w] → recover_lines words = [(w.2, [w])]) := by
  have hgood : ∀ r ∈ recoverRecs words, GoodLine r := by
    intro r hr
    match words, hne with
    | w0 :: rest, _ =>
      simp only [recoverRecs, List.mem_insertionSort] at hr
      exact recoverAux_good rest [w0] w0.1 [] (by simp) (by simp) r hr
  refine ⟨?_, ?_, ?_, ?_, ?_, ?_⟩
  · intro p hp
    obtain ⟨r, hr, hpr⟩ := List.mem_map.mp hp
    exact hpr ▸ (hgood r hr).1
  · intro p hp
    obtain ⟨r, hr, hpr⟩ := List.mem_map.mp hp
    exact hpr ▸ (hgood r hr).2.1
  · intro p hp
    obtain ⟨r, hr, hpr⟩ := List.mem_map.mp hp
    exact hpr ▸ (hgood r hr).2.2
  · match words, hne with
    | w0 :: rest, _ => exact List.sorted_insertionSort lineLE _
  · match words, hne with
    | w0 :: rest, _ =>
      simp only [recover_lines, recoverRecs, ne_eq, List.map_eq_nil_iff]
      intro h
      have : (recoverAux rest [w0] w0.1 []).length = 0 := by
        have := congrArg List.length h
        rwa [List.length_insertionSort] at this
      exact recoverAux_ne_nil rest [w0] w0.1 [] (List.length_eq_zero.mp this)
  · intro w hw
    subst hw
    rfl

/-- C7 witness: a concrete one-word page yields exactly one line, and a
two-word page in one vertical band yields non-empty, left-to-right sorted
lines. -/
theorem recover_lines_spec_witness :
    recover_lines [(⟨10, 100, 30, 112⟩, "Fund")] = [("Fund", [(⟨10, 100, 30, 112⟩, "Fund")])] ∧
    (∀ p ∈ recover_lines [(⟨10, 100, 30, 112⟩, "Fund"), (⟨40, 100, 50, 112⟩, "A")], p.2 ≠ []) := by
  constructor
  · exact (recover_lines_spec [(⟨10, 100, 30, 112⟩, "Fund")] (by simp)).2.2.2.2.2
      (⟨10, 100, 30, 112⟩, "Fund") rfl
  · exact (recover_lines_spec [(⟨10, 100, 30, 112⟩, "Fund"), (⟨40, 100, 50, 112⟩, "A")]
      (by simp)).1

/-! ## Transaction value assignment
(`cas2json/cams/processor.py::CASProcessor.extract_transactions`, token
assignment step; fallback as in `cams/helpers.py::get_transaction_values`) -/

/-- Strip leading and trailing whitespace from a character list
(Python `str.strip`). -/
def trimChars (cs : List Char) : List Char :=
  ((cs.dropWhile Char.isWhitespace).reverse.dropWhile Char.isWhitespace).reverse

/-- The token normalizer of the extractor:
`s.replace("(", "").replace(")", "").strip()`. -/
def normalizeTok (s : String) : String :=
  String.mk (trimChars (s.data.filter (fun c => c ≠ '(' && c ≠ ')')))

/-- The `txn_values` dictionary `{"amount", "units", "nav", "balance"}`. -/
structure TxnValues where
  amount : Option String
  units : Option String
  nav : Option String
  balance : Option String
  deriving DecidableEq, Repr

/-- Assignment `txn_values[header] = val` for the four known header keys. -/
def setHeaderVal (tv : TxnValues) (h : String) (v : String) : TxnValues :=
  if h = "amount" then { tv with amount := some v }
  else if h = "units" then { tv with units := some v }
  else if h = "nav" then { tv with nav := some v }
  else if h = "balance" then { tv with balance := some v }
  else tv

/-- The header band test with the default tolerances `(20, 5)`:
`val_rect.x0 >= rect.x0 - left_tol and val_rect.x1 <= rect.x1 + right_tol`. -/
def headerBand (hr vr : PRect) : Bool :=
  decide (vr.x0 ≥ hr.x0 - 20) && decide (vr.x1 ≤ hr.x1 + 5)

/-- Locate the first word whose normalized text equals the normalized
token, returning its rectangle and the word list with that word removed
(the `word_rects.pop(idx)` consumption step). -/
def findMatchWord : List PWord → String → Option (PRect × List PWord)
  | [], _ => none
  | (r, t) :: rest, v =>
      if normalizeTok t = normalizeTok v then some (r, rest)
      else
        match findMatchWord rest v with
        | none => none
        | some (r2, l) => some (r2, (r, t) :: l)

/-- The header-anchor fallback loop: for each token, consume its
originating word and assign the token to the first header whose widened
horizontal band contains the word's rectangle. -/
def assignByHeaders :
    List String → List PWord → List (String × PRect) → TxnValues → TxnValues
  | [], _, _, tv => tv
  | v :: vs, wordRects, headers, tv =>
      match findMatchWord wordRects v with
      | none => assignByHeaders vs wordRects headers tv
      | some (vr, wordRects') =>
          let tv' :=
            match headers.find? (fun h => headerBand h.2 vr) with
            | some (hname, _) => setHeaderVal tv hname v
            | none => tv
          assignByHeaders vs wordRects' headers tv'

/-- The token-assignment step of `extract_transactions`: with four or more
tokens assign the first four positionally as amount, units, nav, balance;
otherwise resolve tokens against the page header anchors. -/
def assign_transaction_values (values : List String) (wordRects : List PWord)
    (headers : List (String × PRect)) : TxnValues :=
  if values.length ≥ 4 then
    match values with
    | a :: u :: n :: b :: _ => ⟨some a, some u, some n, some b⟩
    | _ => ⟨none, none, none, none⟩
  else assignByHeaders values wordRects headers ⟨none, none, none, none⟩

/-- C5 counterexample: with five tokens (count differs from four) the
extractor still assigns the first four tokens positionally and does not
fall back to header-anchor resolution — here the header fallback would
leave every field null (no word matches any token), yet all four fields
are set. -/
theorem token_assignment_counterexample :
    (["1.00", "2.00", "3.00", "4.00", "5.00"].length ≠ 4) ∧
    assign_transaction_values ["1.00", "2.00", "3.00", "4.00", "5.00"] []
        [("amount", ⟨100, 0, 150, 10⟩)]
      = ⟨some "1.00", some "2.00", some "3.00", some "4.00"⟩ ∧
    assignByHeaders ["1.00", "2.00", "3.00", "4.00", "5.00"] []
        [("amount", ⟨100, 0, 150, 10⟩)] ⟨none, none, none, none⟩
      = ⟨none, none, none, none⟩ ∧
    assign_transaction_values ["1.00", "2.00", "3.00", "4.00", "5.00"] []
        [("amount", ⟨100, 0, 150, 10⟩)]
      ≠ assignByHeaders ["1.00", "2.00", "3.00", "4.00", "5.00"] []
          [("amount", ⟨100, 0, 150, 10⟩)] ⟨none, none, none, none⟩ := by
  refine ⟨by decide, rfl, rfl, by decide⟩

/-- C5 (amended): with four or more tokens the first four are assigned
positionally in the fixed order amount, units, nav, balance; the extractor
falls back to header-anchor resolution exactly when fewer than four tokens
are present. -/
theorem token_assignment_amended (wordRects : List PWord)
    (headers : List (String × PRect)) :
    (∀ a u n b rest, assign_transaction_values (a :: u :: n :: b :: rest) wordRects headers
        = ⟨some a, some u, some n, some b⟩) ∧
    (∀ values : List String, values.length < 4 →
        assign_transaction_values values wordRects headers
          = assignByHeaders values wordRects headers ⟨none, none, none, none⟩) := by
  constructor
  · intro a u n b rest
    have h : (a :: u :: n :: b :: rest).length ≥ 4 := by
      simp [List.length_cons]
    simp [assign_transaction_values, h]
  · intro values hlt
    have h : ¬ (values.length ≥ 4) := by omega
    simp [assign_transaction_values, h]

/-- C5 witness: the amended behaviour at concrete inputs — five tokens
assigned positionally, two tokens resolved through the fallback. -/
theorem token_assignment_amended_witness :
    assign_transaction_values ["1.00", "2.00", "3.00", "4.00", "5.00"] []
        [("amount", ⟨100, 0, 150, 10⟩)]
      = ⟨some "1.00", some "2.00", some "3.00", some "4.00"⟩ ∧
    assign_transaction_values ["7.00", "8.00"] [] [("amount", ⟨100, 0, 150, 10⟩)]
      = assignByHeaders ["7.00", "8.00"] [] [("amount", ⟨100, 0, 150, 10⟩)]
          ⟨none, none, none, none⟩ :=
  ⟨(token_assignment_amended [] [("amount", ⟨100, 0, 150, 10⟩)]).1
      "1.00" "2.00" "3.00" "4.00" ["5.00"],
   (token_assignment_amended [] [("amount", ⟨100, 0, 150, 10⟩)]).2
      ["7.00", "8.00"] (by decide)⟩

/-! ## Detailed statement state machine
(`cas2json/cams/processor.py::CASProcessor.process_detailed_version`;
same fold in `file_processors/cams.py::process_detailed_text`).

Each physical line is classified by exactly one of the priority-ordered
regex rules of the fold; the regex patterns live in `cas2json/patterns.py`,
which is absent from the source tree, so a line enters the embedding as
the classification outcome (`DLine`) and the fold logic over those
outcomes is taken verbatim from the source. -/

/-- Scheme record as built by the detailed fold (`Scheme` in
`cas2json/types.py` of the processor variant). -/
structure DScheme where
  scheme_name : String
  folio : String
  pan : Option String
  amc : Option String
  advisor : Option String
  rta_code : String
  isin : Option String
  rta : Option String
  nominees : List String
  openUnits : Rat
  close : Rat
  close_calculated : Rat
  valuation_date : Option String
  valuation_nav : Rat
  valuation_value : Rat
  valuation_cost : Option Rat
  transactions : List RTxn
  deriving DecidableEq, Repr

/-- Classification outcome of one reconstructed line under the detailed
grammar's priority-ordered rules. -/
inductive DLine where
  | amcLine (name : String)
  | folioLine (folio : String) (pan : Option String)
  | schemeLine (name : String) (isin : Option String) (rtaCode : String)
      (advisor : Option String)
  | registrarLine (rta : String)
  | nomineeLine (names : List String)
  | openLine (v : Rat)
  | valuationLine (close cost value nav : Option Rat) (vdate : Option String)
  | txnLine (txns : List RTxn)
  | otherLine
  deriving DecidableEq, Repr

/-- The mutable fold context of `process_detailed_version`. -/
structure DState where
  schemes : List DScheme
  current_folio : Option String
  current_scheme : Option DScheme
  current_pan : Option String
  current_amc : Option String
  current_registrar : Option String
  deriving Repr

/-- Initial fold context: everything empty. -/
def initDState : DState := ⟨[], none, none, none, none, none⟩

/-- `finalize_current_scheme`: append the active scheme to the output list
and reset it. -/
def finalize_current_scheme (s : DState) : DState :=
  match s.current_scheme with
  | none => s
  | some cs => { s with schemes := s.schemes ++ [cs], current_scheme := none }

/-- The message of the fatal layout error raised by the detailed fold. -/
def layoutErrorMsg : String := "Layout Error! Scheme found before folio entry."

/-- One step of the detailed fold: dispatch on the line's classification,
mirroring the rule bodies of `process_detailed_version`. -/
def stepDetailed (stmtTo : Option String) (s : DState) : DLine → Except String DState
  | .amcLine a => .ok { s with current_amc := some a }
  | .folioLine f p =>
      if s.current_folio ≠ some f then
        let sf := finalize_current_scheme s
        .ok { sf with current_folio := some f, current_pan := p }
      else .ok s
  | .schemeLine name isin rtaCode advisor =>
      match s.current_folio with
      | none => .error layoutErrorMsg
      | some f =>
          let s1 :=
            match s.current_scheme with
            | some cs => if cs.scheme_name ≠ name then finalize_current_scheme s else s
            | none => s
          let newScheme : DScheme :=
            { scheme_name := name, folio := f, pan := s1.current_pan,
              amc := s1.current_amc, advisor := advisor, rta_code := rtaCode,
              isin := isin, rta := s1.current_registrar, nominees := [],
              openUnits := 0, close := 0, close_calculated := 0,
              valuation_date := stmtTo, valuation_nav := 0, valuation_value := 0,
              valuation_cost := none, transactions := [] }
          .ok { s1 with current_scheme := some newScheme, current_registrar := none }
  | .registrarLine r =>
      match s.current_scheme with
      | some cs => .ok { s with current_scheme := some { cs with rta := some r } }
      | none => .ok { s with current_registrar := some r }
  | .nomineeLine ns =>
      match s.current_scheme with
      | none => .ok s
      | some cs =>
          let cs2 : DScheme := { cs with nominees := cs.nominees ++ ns }
          .ok { s with current_scheme := some cs2 }
  | .openLine v =>
      match s.current_scheme with
      | none => .ok s
      | some cs =>
          let cs2 : DScheme := { cs with openUnits := v, close_calculated := v }
          .ok { s with current_scheme := some cs2 }
  | .valuationLine c cost val nav vd =>
      match s.current_scheme with
      | none => .ok s
      | some cs =>
          let cs2 : DScheme :=
            { cs with close := c.getD cs.close,
                      valuation_cost := (match cost with
                        | some x => some x
                        | none => cs.valuation_cost),
                      valuation_value := val.getD cs.valuation_value,
                      valuation_nav := nav.getD cs.valuation_nav,
                      valuation_date := (match vd with
                        | some dt => some dt
                        | none => cs.valuation_date) }
          .ok { s with current_scheme := some cs2 }
  | .txnLine txns =>
      match s.current_scheme with
      | none => .ok s
      | some cs =>
          let cs2 : DScheme :=
            { cs with close_calculated := cs.close_calculated + sumUnits txns,
                      transactions := cs.transactions ++ txns }
          .ok { s with current_scheme := some cs2 }
  | .otherLine => .ok s

/-- The left-to-right fold over all classified lines, finalizing the last
active scheme at end of input. -/
def runDetailed (stmtTo : Option String) : DState → List DLine → Except String DState
  | s, [] => .ok (finalize_current_scheme s)
  | s, l :: rest =>
      match stepDetailed stmtTo s l with
      | .error e => .error e
      | .ok s' => runDetailed stmtTo s' rest

/-- `process_detailed_version`: fold the classified lines and return the
collected schemes, or the fatal parse error. -/
def process_detailed_version (stmtTo : Option String) (lines : List DLine) :
    Except String (List DScheme) :=
  match runDetailed stmtTo initDState lines with
  | .error e => .error e
  | .ok s => .ok s.schemes

/-- The scheme list carried by a fold result (empty on a fatal error). -/
def schemesOf (r : Except String (List DScheme)) : List DScheme :=
  match r with
  | .ok s => s
  | .error _ => []

/-- Per-line well-formedness condition: an opening-balance line is only
acceptable while the active scheme (if any) has no transactions yet. -/
def openLineOk (s : DState) : DLine → Bool
  | .openLine _ =>
      match s.current_scheme with
      | some cs => cs.transactions.isEmpty
      | none => true
  | _ => true

/-- Well-formedness of a detailed statement relative to the fold: an
opening-balance line never arrives once the active scheme already holds
transactions (vendor print order: the opening balance precedes the
transaction rows of its scheme). -/
def wfFrom (stmtTo : Option String) (s : DState) : List DLine → Bool
  | [] => true
  | l :: rest =>
      openLineOk s l &&
      (match stepDetailed stmtTo s l with
       | .error _ => true
       | .ok s' => wfFrom stmtTo s' rest)

/-- The C1 invariant for a single scheme. -/
def SchemeInv (sch : DScheme) : Prop :=
  sch.close_calculated = sch.openUnits + sumUnits sch.transactions

theorem sumUnits_append (a b : List RTxn) :
    sumUnits (a ++ b) = sumUnits a + sumUnits b := by
  simp [sumUnits]

theorem sumUnits_nil : sumUnits [] = 0 := rfl

theorem finalize_inv (s : DState)
    (h1 : ∀ sch ∈ s.schemes, SchemeInv sch)
    (h2 : ∀ cs, s.current_scheme = some cs → SchemeInv cs) :
    (∀ sch ∈ (finalize_current_scheme s).schemes, SchemeInv sch) ∧
    (finalize_current_scheme s).current_scheme = none := by
  unfold finalize_current_scheme
  cases hcs : s.current_scheme with
  | none =>
      refine ⟨h1, ?_⟩
      exact hcs
  | some cs =>
      refine ⟨?_, rfl⟩
      intro sch hsch
      rcases List.mem_append.mp hsch with h | h
      · exact h1 sch h
      · exact (List.mem_singleton.mp h) ▸ h2 cs hcs

theorem stepDetailed_inv (stmtTo : Option String) (s : DState) (l : DLine)
    (s' : DState) (hstep : stepDetailed stmtTo s l = Except.ok s')
    (hwfl : openLineOk s l = true)
    (h1 : ∀ sch ∈ s.schemes, SchemeInv sch)
    (h2 : ∀ cs, s.current_scheme = some cs → SchemeInv cs) :
    (∀ sch ∈ s'.schemes, SchemeInv sch) ∧
    (∀ cs, s'.current_scheme = some cs → SchemeInv cs) := by
  cases l with
  | amcLine a =>
      simp only [stepDetailed, Except.ok.injEq] at hstep
      subst hstep
      exact ⟨h1, h2⟩
  | folioLine f p =>
      simp only [stepDetailed] at hstep
      split at hstep
      · simp only [Except.ok.injEq] at hstep
        subst hstep
        refine ⟨(finalize_inv s h1 h2).1, ?_⟩
        intro cs hcs
        have hcs2 : (finalize_current_scheme s).current_scheme = some cs := hcs
        rw [(finalize_inv s h1 h2).2] at hcs2
        cases hcs2
      · simp only [Except.ok.injEq] at hstep
        subst hstep
        exact ⟨h1, h2⟩
  | schemeLine name isin rtaCode advisor =>
      simp only [stepDetailed] at hstep
      cases hf : s.current_folio with
      | none => rw [hf] at hstep; exact absurd hstep (by simp)
      | some f =>
          rw [hf] at hstep
          simp only [Except.ok.injEq] at hstep
          subst hstep
          constructor
          · cases hcs : s.current_scheme with
            | none => simpa [hcs] using h1
            | some cs =>
                simp only [hcs]
                split
                · exact (finalize_inv s h1 h2).1
                · exact h1
          · intro cs2 hcs2
            simp only [Option.some.injEq] at hcs2
            rw [← hcs2]
            show SchemeInv _
            simp [SchemeInv, sumUnits]
  | registrarLine r =>
      simp only [stepDetailed] at hstep
      cases hcs : s.current_scheme with
      | none =>
          rw [hcs] at hstep
          simp only [Except.ok.injEq] at hstep
          subst hstep
          refine ⟨h1, ?_⟩
          intro cs2 hcs2
          simp at hcs2
      | some cs =>
          rw [hcs] at hstep
          simp only [Except.ok.injEq] at hstep
          subst hstep
          refine ⟨h1, ?_⟩
          intro cs2 hcs2
          simp only [Option.some.injEq] at hcs2
          have := h2 cs hcs
          rw [← hcs2]
          simpa [SchemeInv] using this
  | nomineeLine ns =>
      simp only [stepDetailed] at hstep
      cases hcs : s.current_scheme with
      | none =>
          rw [hcs] at hstep
          simp only [Except.ok.injEq] at hstep
          subst hstep
          exact ⟨h1, h2⟩
      | some cs =>
          rw [hcs] at hstep
          simp only [Except.ok.injEq] at hstep
          subst hstep
          refine ⟨h1, ?_⟩
          intro cs2 hcs2
          simp only [Option.some.injEq] at hcs2
          have := h2 cs hcs
          rw [← hcs2]
          simpa [SchemeInv] using this
  | openLine v =>
      simp only [stepDetailed] at hstep
      cases hcs : s.current_scheme with
      | none =>
          rw [hcs] at hstep
          simp only [Except.ok.injEq] at hstep
          subst hstep
          exact ⟨h1, h2⟩
      | some cs =>
          rw [hcs] at hstep
          simp only [Except.ok.injEq] at hstep
          subst hstep
          refine ⟨h1, ?_⟩
          intro cs2 hcs2
          simp only [Option.some.injEq] at hcs2
          rw [openLineOk, hcs] at hwfl
          have htr : cs.transactions = [] := by
            simpa [List.isEmpty_iff] using hwfl
          rw [← hcs2]
          show SchemeInv _
          simp [SchemeInv, htr, sumUnits]
  | valuationLine c cost val nav vd =>
      simp only [stepDetailed] at hstep
      cases hcs : s.current_scheme with
      | none =>
          rw [hcs] at hstep
          simp only [Except.ok.injEq] at hstep
          subst hstep
          exact ⟨h1, h2⟩
      | some cs =>
          rw [hcs] at hstep
          simp only [Except.ok.injEq] at hstep
          subst hstep
          refine ⟨h1, ?_⟩
          intro cs2 hcs2
          simp only [Option.some.injEq] at hcs2
          have := h2 cs hcs
          rw [← hcs2]
          simpa [SchemeInv] using this
  | txnLine txns =>
      simp only [stepDetailed] at hstep
      cases hcs : s.current_scheme with
      | none =>
          rw [hcs] at hstep
          simp only [Except.ok.injEq] at hstep
          subst hstep
          exact ⟨h1, h2⟩
      | some cs =>
          rw [hcs] at hstep
          simp only [Except.ok.injEq] at hstep
          subst hstep
          refine ⟨h1, ?_⟩
          intro cs2 hcs2
          simp only [Option.some.injEq] at hcs2
          have hinv := h2 cs hcs
          rw [← hcs2]
          show SchemeInv _
          simp only [SchemeInv] at hinv ⊢
          simp only [sumUnits_append]
          rw [hinv]
          ring
  | otherLine =>
      simp only [stepDetailed, Except.ok.injEq] at hstep
      subst hstep
      exact ⟨h1, h2⟩

theorem runDetailed_inv (stmtTo : Option String) :
    ∀ (lines : List DLine) (s : DState),
    (∀ sch ∈ s.schemes, SchemeInv sch) →
    (∀ cs, s.current_scheme = some cs → SchemeInv cs) →
    wfFrom stmtTo s lines = true →
    ∀ s', runDetailed stmtTo s lines = Except.ok s' →
    ∀ sch ∈ s'.schemes, SchemeInv sch := by
  intro lines
  induction lines with
  | nil =>
      intro s h1 h2 _ s' hrun sch hsch
      simp only [runDetailed, Except.ok.injEq] at hrun
      subst hrun
      exact (finalize_inv s h1 h2).1 sch hsch
  | cons l rest ih =>
      intro s h1 h2 hwf s' hrun sch hsch
      simp only [wfFrom, Bool.and_eq_true] at hwf
      obtain ⟨hwfl, hwfrest⟩ := hwf
      cases hstep : stepDetailed stmtTo s l with
      | error e =>
          rw [runDetailed, hstep] at hrun
          cases hrun
      | ok s2 =>
          rw [hstep] at hwfrest
          rw [runDetailed, hstep] at hrun
          obtain ⟨h1', h2'⟩ := stepDetailed_inv stmtTo s l s2 hstep hwfl h1 h2
          exact ih s2 h1' h2' hwfrest s' hrun sch hsch

/-- C1: for every well-formed detailed statement (opening-balance lines
precede their scheme's transaction lines), each scheme in the fold's
output has `close_calculated` equal to its opening units plus the exact
sum of the non-null units of its appended transactions, independently of
the vendor-reported `close`. -/
theorem close_calculated_invariant (stmtTo : Option String) (lines : List DLine)
    (hwf : wfFrom stmtTo initDState lines = true) :
    ∀ sch ∈ schemesOf (process_detailed_version stmtTo lines),
      sch.close_calculated = sch.openUnits + sumUnits sch.transactions := by
  intro sch hsch
  unfold process_detailed_version schemesOf at hsch
  revert hsch
  cases hrun : runDetailed stmtTo initDState lines with
  | error e => intro hsch; cases hsch
  | ok s' =>
      intro hsch
      exact runDetailed_inv stmtTo lines initDState (by simp [initDState])
        (by simp [initDState]) hwf s' hrun sch hsch

/-- C1 witness: a concrete four-line statement (folio, scheme header,
opening balance 10, one transaction of 5 units) is well-formed and every
output scheme satisfies the close_calculated invariant. -/
theorem close_calculated_invariant_witness :
    wfFrom none initDState
      [DLine.folioLine "123" none, DLine.schemeLine "S" none "C" none,
       DLine.openLine 10, DLine.txnLine [⟨1, some 5, none⟩]] = true ∧
    ∀ sch ∈ schemesOf (process_detailed_version none
      [DLine.folioLine "123" none, DLine.schemeLine "S" none "C" none,
       DLine.openLine 10, DLine.txnLine [⟨1, some 5, none⟩]]),
      sch.close_calculated = sch.openUnits + sumUnits sch.transactions :=
  ⟨by decide,
   close_calculated_invariant none
     [DLine.folioLine "123" none, DLine.schemeLine "S" none "C" none,
      DLine.openLine 10, DLine.txnLine [⟨1, some 5, none⟩]] (by decide)⟩

/-- Is a classified line a folio line? -/
def isFolioLine : DLine → Bool
  | .folioLine _ _ => true
  | _ => false

theorem stepDetailed_error_msg (stmtTo : Option String) (s : DState) (l : DLine)
    (e : String) (hstep : stepDetailed stmtTo s l = Except.error e) :
    e = layoutErrorMsg := by
  cases l with
  | schemeLine name isin rtaCode advisor =>
      simp only [stepDetailed] at hstep
      cases hf : s.current_folio with
      | none =>
          rw [hf] at hstep
          simp only [Except.error.injEq] at hstep
          exact hstep.symm
      | some f => rw [hf] at hstep; cases hstep
  | amcLine a => simp [stepDetailed] at hstep
  | folioLine f p =>
      simp only [stepDetailed] at hstep
      split at hstep <;> cases hstep
  | registrarLine r =>
      simp only [stepDetailed] at hstep
      cases hcs : s.current_scheme <;> rw [hcs] at hstep <;> simp at hstep
  | nomineeLine ns =>
      simp only [stepDetailed] at hstep
      cases hcs : s.current_scheme <;> rw [hcs] at hstep <;> simp at hstep
  | openLine v =>
      simp only [stepDetailed] at hstep
      cases hcs : s.current_scheme <;> rw [hcs] at hstep <;> simp at hstep
  | valuationLine c cost val nav vd =>
      simp only [stepDetailed] at hstep
      cases hcs : s.current_scheme <;> rw [hcs] at hstep <;> simp at hstep
  | txnLine txns =>
      simp only [stepDetailed] at hstep
      cases hcs : s.current_scheme <;> rw [hcs] at hstep <;> simp at hstep
  | otherLine => simp [stepDetailed] at hstep

theorem stepDetailed_folio_unchanged (stmtTo : Option String) (s : DState)
    (l : DLine) (s' : DState) (hl : isFolioLine l = false)
    (hstep : stepDetailed stmtTo s l = Except.ok s') :
    s'.current_folio = s.current_folio := by
  cases l with
  | folioLine f p => simp [isFolioLine] at hl
  | amcLine a =>
      simp only [stepDetailed, Except.ok.injEq] at hstep
      subst hstep; rfl
  | schemeLine name isin rtaCode advisor =>
      simp only [stepDetailed] at hstep
      cases hf : s.current_folio with
      | none => rw [hf] at hstep; cases hstep
      | some f =>
          rw [hf] at hstep
          simp only [Except.ok.injEq] at hstep
          subst hstep
          cases hcs : s.current_scheme with
          | none => simp [hcs, hf, finalize_current_scheme]
          | some cs =>
              simp only [hcs]
              split
              · simp [finalize_current_scheme, hcs, hf]
              · exact hf
  | registrarLine r =>
      simp only [stepDetailed] at hstep
      cases hcs : s.current_scheme <;> rw [hcs] at hstep <;>
        simp only [Except.ok.injEq] at hstep <;> subst hstep <;> rfl
  | nomineeLine ns =>
      simp only [stepDetailed] at hstep
      cases hcs : s.current_scheme <;> rw [hcs] at hstep <;>
        simp only [Except.ok.injEq] at hstep <;> subst hstep <;> rfl
  | openLine v =>
      simp only [stepDetailed] at hstep
      cases hcs : s.current_scheme <;> rw [hcs] at hstep <;>
        simp only [Except.ok.injEq] at hstep <;> subst hstep <;> rfl
  | valuationLine c cost val nav vd =>
      simp only [stepDetailed] at hstep
      cases hcs : s.current_scheme <;> rw [hcs] at hstep <;>
        simp only [Except.ok.injEq] at hstep <;> subst hstep <;> rfl
  | txnLine txns =>
      simp only [stepDetailed] at hstep
      cases hcs : s.current_scheme <;> rw [hcs] at hstep <;>
        simp only [Except.ok.injEq] at hstep <;> subst hstep <;> rfl
  | otherLine =>
      simp only [stepDetailed, Except.ok.injEq] at hstep
      subst hstep; rfl

theorem run_scheme_before_folio (stmtTo : Option String) (post : List DLine)
    (name : String) (isin : Option String) (rtaCode : String)
    (advisor : Option String) :
    ∀ (pre : List DLine) (s : DState), s.current_folio = none →
    (∀ l ∈ pre, isFolioLine l = false) →
    runDetailed stmtTo s (pre ++ DLine.schemeLine name isin rtaCode advisor :: post)
      = Except.error layoutErrorMsg := by
  intro pre
  induction pre with
  | nil =>
      intro s hf _
      rw [List.nil_append, runDetailed]
      simp [stepDetailed, hf]
  | cons l pre' ih =>
      intro s hf hpre
      rw [List.cons_append, runDetailed]
      cases hstep : stepDetailed stmtTo s l with
      | error e =>
          rw [stepDetailed_error_msg stmtTo s l e hstep]
      | ok s2 =>
          have hl : isFolioLine l = false := hpre l (List.mem_cons_self l pre')
          have hf2 : s2.current_folio = none :=
            (stepDetailed_folio_unchanged stmtTo s l s2 hl hstep).trans hf
          exact ih s2 hf2 (fun l2 hl2 => hpre l2 (List.mem_cons_of_mem l hl2))

/-- C3: a scheme-header line arriving while no folio context is active
makes the detailed fold fail with the fatal layout error, and the run
produces no output scheme collection at all. -/
theorem scheme_before_folio_layout_error (stmtTo : Option String)
    (pre post : List DLine) (name : String) (isin : Option String)
    (rtaCode : String) (advisor : Option String)
    (hpre : ∀ l ∈ pre, isFolioLine l = false) :
    process_detailed_version stmtTo
        (pre ++ DLine.schemeLine name isin rtaCode advisor :: post)
      = Except.error layoutErrorMsg ∧
    ∀ out, process_detailed_version stmtTo
        (pre ++ DLine.schemeLine name isin rtaCode advisor :: post)
      ≠ Except.ok out := by
  have h := run_scheme_before_folio stmtTo post name isin rtaCode advisor pre
    initDState rfl hpre
  constructor
  · unfold process_detailed_version
    rw [h]
  · intro out hout
    unfold process_detailed_version at hout
    rw [h] at hout
    cases hout

/-- C3 witness: an AMC line followed directly by a scheme-header line (no
folio seen) yields the layout error and no scheme list. -/
theorem scheme_before_folio_layout_error_witness :
    process_detailed_version none
        [DLine.amcLine "HDFC", DLine.schemeLine "S" none "C" none]
      = Except.error layoutErrorMsg ∧
    ∀ out, process_detailed_version none
        [DLine.amcLine "HDFC", DLine.schemeLine "S" none "C" none]
      ≠ Except.ok out :=
  scheme_before_folio_layout_error none [DLine.amcLine "HDFC"] [] "S" none "C" none
    (by decide)

/-! ## Summary statement state machine
(`cas2json/cams/processor.py::CASProcessor.process_summary_version`).
Lines are classified by the summary grammar (patterns absent from the
source tree): a qualifying summary row captures a full scheme; any line is
additionally flagged when it contains the `Total` sentinel text. -/

/-- Scheme record captured by one summary row. -/
structure SScheme where
  folio : String
  scheme_name : String
  rta_code : String
  rta : String
  isin : String
  openUnits : Rat
  close : Rat
  close_calculated : Rat
  valuation_date : String
  valuation_nav : Rat
  valuation_value : Rat
  valuation_cost : Rat
  deriving DecidableEq, Repr

/-- Classification of one summary-section line: a qualifying scheme row
(with its captured fields) or any other text line; both carry whether the
line text contains the `Total` sentinel. -/
inductive SLine where
  | rowLine (folio name code rta isin : String)
      (balance vnav vvalue vcost : Rat) (vdate : String) (hasTotal : Bool)
  | textLine (text : String) (hasTotal : Bool)
  deriving DecidableEq, Repr

/-- The mutable context of `process_summary_version`. -/
structure SState where
  schemes : List SScheme
  current_folio : Option String
  current_scheme : Option SScheme
  deriving DecidableEq, Repr

/-- One page of the summary fold, with the `Total`-sentinel `break`
(which exits only the current page's line loop, and only once at least
one scheme has been emitted to the output list). -/
def runSummaryPage (st : SState) : List SLine → SState
  | [] => st
  | l :: rest =>
    match l with
    | .rowLine folio name code rta isin balance vnav vvalue vcost vdate hasTotal =>
        if st.schemes ≠ [] ∧ hasTotal = true then st
        else
          let st1 :=
            match st.current_scheme with
            | some cs => { st with schemes := st.schemes ++ [cs], current_scheme := none }
            | none => st
          let sch : SScheme :=
            { folio := folio, scheme_name := name, rta_code := code, rta := rta,
              isin := isin, openUnits := balance, close := balance,
              close_calculated := balance, valuation_date := vdate,
              valuation_nav := vnav, valuation_value := vvalue,
              valuation_cost := vcost }
          runSummaryPage
            { st1 with current_folio := some folio, current_scheme := some sch } rest
    | .textLine text hasTotal =>
        if st.schemes ≠ [] ∧ hasTotal = true then st
        else
          match st.current_scheme with
          | some cs =>
              let cs2 : SScheme := { cs with scheme_name :=
                cs.scheme_name ++ " " ++ String.mk (trimChars text.data) }
              runSummaryPage { st with current_scheme := some cs2 } rest
          | none => runSummaryPage st rest

/-- `process_summary_version`: fold all pages and return the collected
schemes.  The pending `current_scheme` is never finalized at the end —
this is the behaviour under test in C8. -/
def process_summary_version (pages : List (List SLine)) : List SScheme :=
  (pages.foldl runSummaryPage ⟨[], none, none⟩).schemes

/-- C8: the summary state machine loses the most recently captured scheme.
With a single qualifying row followed by a `Total` line the output is
empty (the sentinel does not fire because nothing was emitted yet, the
`Total` text is appended to the pending scheme's name, and the pending
scheme is never finalized); with two rows and a `Total` line only the
first scheme appears. -/
theorem summary_version_drops_last_scheme :
    process_summary_version
      [[SLine.rowLine "123" "S1" "C" "CAMS" "INF1" 1 2 3 4 "01-Jan-2024" false,
        SLine.textLine "Total" true]] = [] ∧
    process_summary_version
      [[SLine.rowLine "123" "S1" "C" "CAMS" "INF1" 1 2 3 4 "01-Jan-2024" false,
        SLine.rowLine "456" "S2" "D" "CAMS" "INF2" 5 6 7 8 "01-Jan-2024" false,
        SLine.textLine "Total" true]]
      = [{ folio := "123", scheme_name := "S1", rta_code := "C", rta := "CAMS",
           isin := "INF1", openUnits := 1, close := 1, close_calculated := 1,
           valuation_date := "01-Jan-2024", valuation_nav := 2,
           valuation_value := 3, valuation_cost := 4 }] := by
  constructor
  · rfl
  · rfl

/-! ## Depository stock/bond row extraction
(`cas2json/cdsl/processor.py::CDSLProcessor.extract_cdsl_scheme`,
stock / corporate-bond arm) -/

/-- Asset classes relevant to `extract_cdsl_scheme` (`SchemeType`). -/
inductive DepSchemeType where
  | stock
  | corporate_bond
  | mutual_fund
  | other
  deriving DecidableEq, Repr

/-- `DepositoryScheme` fields produced by the stock/bond arm. -/
structure DepScheme where
  isin : String
  units : Option Rat
  nav : Option Rat
  market_value : Option Rat
  invested_value : Option Rat
  scheme_type : DepSchemeType
  deriving DecidableEq, Repr

/-- Modelled from the spec: the ISIN pattern of `cas2json/patterns.py`
(absent from the source tree) anchored at the start of a token: two
letters, nine alphanumerics, a final check digit. -/
def isISINTok (s : String) : Bool :=
  match s.data with
  | c1 :: c2 :: rest =>
      c1.isAlpha && c2.isAlpha && decide (rest.length ≥ 10) &&
      (rest.take 9).all (fun c => c.isAlphanum) &&
      (match rest.drop 9 with
       | c :: _ => c.isDigit
       | [] => false)
  | _ => false

/-- Strip the thousands separators of a numeric token
(`val.replace(",", "")`). -/
def removeCommas (s : String) : List Char := s.data.filter (fun c => c ≠ ',')

/-- Tail of the regex `\d+\.\d+` after its first digit: optional further
digits, a decimal point, then a digit. -/
def digitsThenPoint : List Char → Bool
  | '.' :: c :: _ => c.isDigit
  | c :: rest => c.isDigit && digitsThenPoint rest
  | _ => false

/-- Search for the regex `\d+\.\d+` anywhere in the text (the
"looks like a decimal number" test on a comma-stripped token). -/
def containsDecimalNumber : List Char → Bool
  | [] => false
  | c :: rest => (c.isDigit && digitsThenPoint rest) || containsDecimalNumber rest

/-- Parse a full unsigned decimal token (`Decimal(...)` on a
comma-stripped token): digits with an optional fractional part; anything
else is rejected. -/
def parseDecimalAll (cs : List Char) : Option Rat :=
  let intDigits := cs.takeWhile Char.isDigit
  if intDigits.isEmpty then none
  else
    match cs.dropWhile Char.isDigit with
    | [] => some (digitsVal intDigits : Nat)
    | '.' :: rest =>
        if rest.all Char.isDigit then
          some (mkRat (digitsVal (intDigits ++ rest)) (10 ^ rest.length))
        else none
    | _ => none

/-- `CDSLProcessor._clean_decimal`: placeholder dashes and dots become
null; other tokens are converted with `Decimal`, whose conversion failure
(`InvalidOperation`) is a raised exception. -/
def clean_decimal (s : String) : Except String (Option Rat) :=
  if s = "" || s = "--" || s = "-" || s = "." then .ok none
  else
    match parseDecimalAll (removeCommas s) with
    | some r => .ok (some r)
    | none => .error "InvalidOperation"

/-- The stock / corporate-bond arm of `extract_cdsl_scheme`: locate the
ISIN token, skip to the first decimal-looking token, keep ISIN plus the
tokens from there on, require the minimum token count (5 for stocks, 7
for bonds) or drop the row, then destructure the columns; the stock
destructuring `isin, units, _, _, _, _, nav, market_value = words[:8]`
raises `ValueError` when fewer than eight tokens remain.  For bonds,
`invested_value` is computed as face value times units. -/
def extract_cdsl_stock_bond (line : List String) (schemeType : DepSchemeType) :
    Except String (Option DepScheme) :=
  match line.findIdx? isISINTok with
  | none => .ok none
  | some isinIdx =>
      let isinTok := (line.drop isinIdx).headD ""
      let tail := line.drop (isinIdx + 1)
      match tail.findIdx? (fun w => containsDecimalNumber (removeCommas w)) with
      | none => .ok none
      | some j =>
          let ws := isinTok :: tail.drop j
          if (ws.length < 5 ∧ schemeType = .stock) ∨
             (ws.length < 7 ∧ schemeType = .corporate_bond) then .ok none
          else
            match schemeType with
            | .stock =>
                match ws with
                | isin :: units :: _ :: _ :: _ :: _ :: nav :: mv :: _ => do
                    let u ← clean_decimal units
                    let n ← clean_decimal nav
                    let m ← clean_decimal mv
                    .ok (some ⟨isin, u, n, m, none, .stock⟩)
                | _ => .error "ValueError: not enough values to unpack"
            | .corporate_bond =>
                let isin := ws.headD ""
                match ws.drop (ws.length - 4) with
                | [units, faceValue, nav, mv] => do
                    let u ← clean_decimal units
                    let n ← clean_decimal nav
                    let m ← clean_decimal mv
                    match parseDecimalAll (removeCommas faceValue),
                          parseDecimalAll (removeCommas units) with
                    | some fv, some uu =>
                        .ok (some ⟨isin, u, n, m, some (fv * uu), .corporate_bond⟩)
                    | _, _ => .error "InvalidOperation"
                | _ => .error "ValueError: not enough values to unpack"
            | _ => .ok none

/-- C9: the stock destructuring contradicts the minimum-token guard: a
stock row that keeps exactly five tokens after ISIN location passes the
`len < 5` guard but blows up in the eight-way unpack, raising instead of
returning a scheme or silently discarding the row.  Rows below the
minimum are discarded as claimed, and a seven-token bond row yields
`invested_value = face_value * units`. -/
theorem cdsl_stock_unpack_raises :
    extract_cdsl_stock_bond
        ["INE123A01016", "12.50", "3.50", "40.00", "500.00"] .stock
      = .error "ValueError: not enough values to unpack" ∧
    extract_cdsl_stock_bond ["INE123A01016", "12.50"] .stock = .ok none ∧
    extract_cdsl_stock_bond
        ["INE123A01016", "1.5", "2.5", "3", "4", "5", "6"] .corporate_bond
      = .ok (some { isin := "INE123A01016", units := some 3, nav := some 5,
                    market_value := some 6, invested_value := some (4 * 3),
                    scheme_type := .corporate_bond }) := by
  refine ⟨rfl, rfl, rfl⟩
